import Mathlib

/-!
Verification of the terminal snake game in `de-vri-es/nsnake`.

The repository holds two near-identical implementations of the game:
`src/snake.cpp` (monochrome field, free functions) and `src/nsnake.cpp`
(colour field, member functions).  The game logic is embedded once below
under the `snake.cpp` names; the two files differ in exactly one place —
`resetGame` in `snake.cpp` does not spawn a fruit, while `Game::reset` in
`nsnake.cpp` ends with `spawnFruit` — so both tick functions are defined:
`doTick` (the `snake.cpp` variant) and `gameDoTick` (the `nsnake.cpp`
variant, whose dead-branch reset is `gameReset`).

Modelling conventions:
* C++ `int` is modelled as `Int` (no overflow occurs at game scale);
  `Int` division and remainder are only ever applied to non-negative
  operands here, where they agree with C++ truncating division.
* The `std::mt19937` generator together with `uniform_int_distribution`
  is modelled as an abstract stream of natural draws (`Rng`); each call
  of the distribution yields `seq pos % cells` and advances the cursor.
* The unbounded rejection-sampling loop of `spawnFruit` is given explicit
  fuel and returns `Option`; ticks that would loop forever return `none`.
* Calling `std::vector::front`/`back` on an empty segment list is
  undefined behaviour in C++; the embedding returns `none` from a tick in
  that situation and leaves the snake unchanged in `moveSnakeHead`.
-/

namespace NSnake

/-- A point in 2D space (`Point` in snake.cpp, `Vector2` in nsnake.cpp). -/
structure Point where
  x : Int
  y : Int
deriving DecidableEq, Repr

/-- A 2D size (snake.cpp `Size`). -/
structure Size where
  width : Int
  height : Int
deriving DecidableEq, Repr

/-- The four movement directions (snake.cpp constants `up = 0`, `right = 1`,
`down = 2`, `left = 3`; nsnake.cpp `enum class Direction`). -/
inductive Direction where
  | up
  | right
  | down
  | left
deriving DecidableEq, Repr

/-- snake.cpp `opposite` (nsnake.cpp unary `operator-` on `Direction`). -/
def opposite : Direction → Direction
  | .up => .down
  | .right => .left
  | .down => .up
  | .left => .right

/-- snake.cpp `advance`: move a point `distance` cells in a direction. -/
def advance (p : Point) (d : Direction) (distance : Int) : Point :=
  match d with
  | .up => ⟨p.x, p.y - distance⟩
  | .right => ⟨p.x + distance, p.y⟩
  | .down => ⟨p.x, p.y + distance⟩
  | .left => ⟨p.x - distance, p.y⟩

/-- A segment of a snake: a straight run of `length` cells. -/
structure Segment where
  direction : Direction
  length : Int
deriving DecidableEq, Repr

/-- A snake: head position plus run-length-encoded body, front segment first. -/
structure Snake where
  head : Point
  segments : List Segment
deriving DecidableEq, Repr

/-- The random generator: an abstract stream of draws plus a cursor.
Models the `std::mt19937` passed by reference into `spawnFruit`. -/
structure Rng where
  seq : Nat → Nat
  pos : Nat

/-- The game state (snake.cpp / nsnake.cpp `struct Game`). -/
structure Game where
  alive : Bool := true
  score : Int := 0
  board_size : Size
  snake : Snake
  fruit : Point
  message : String := ""
deriving DecidableEq, Repr

/-- snake.cpp `pointOnLine`: is `point` on the closed-open run of
`line_length` cells starting at `line_start` going in `line_direction`? -/
def pointOnLine (point line_start : Point) (line_direction : Direction)
    (line_length : Int) : Bool :=
  let dx := point.x - line_start.x
  let dy := point.y - line_start.y
  match line_direction with
  | .up => decide (dx = 0 ∧ 0 ≤ -dy ∧ -dy < line_length)
  | .down => decide (dx = 0 ∧ 0 ≤ dy ∧ dy < line_length)
  | .left => decide (dy = 0 ∧ 0 ≤ -dx ∧ -dx < line_length)
  | .right => decide (dy = 0 ∧ 0 ≤ dx ∧ dx < line_length)

/-- snake.cpp `pointInsideArea`. -/
def pointInsideArea (point : Point) (area : Size) : Bool :=
  decide (0 ≤ point.x ∧ point.x < area.width ∧ 0 ≤ point.y ∧ point.y < area.height)

/-- The loop body of `pointCollidesWithSnake`: walk the segment chain from
`cursor`, testing the point against each segment's line.  The first segment
is tested only when `check_first` is true (the `check_head || i > 0` guard). -/
def collideFrom (p cursor : Point) (check_first : Bool) : List Segment → Bool
  | [] => false
  | seg :: rest =>
    (check_first && pointOnLine p cursor (opposite seg.direction) seg.length) ||
      collideFrom p (advance cursor (opposite seg.direction) seg.length) true rest

/-- snake.cpp / nsnake.cpp `pointCollidesWithSnake`. -/
def pointCollidesWithSnake (p : Point) (s : Snake) (check_head : Bool := true) : Bool :=
  collideFrom p s.head check_head s.segments

/-- snake.cpp / nsnake.cpp `snakeCollided`. -/
def snakeCollided (s : Snake) (field_size : Size) : Bool :=
  pointCollidesWithSnake s.head s false || !pointInsideArea s.head field_size

/-- The cells of one straight run of `len` cells from `start` in direction `d`
(the cells accepted by `pointOnLine start d len`). -/
def lineCells (start : Point) (d : Direction) (len : Int) : List Point :=
  (List.range len.toNat).map fun k => advance start d (Int.ofNat k)

/-- The cells traced by a segment list walked from `cursor`, each segment
walked in its inverse direction, exactly as `pointCollidesWithSnake` and
`drawSnake` walk it. -/
def segsCells (cursor : Point) : List Segment → List Point
  | [] => []
  | seg :: rest =>
    lineCells cursor (opposite seg.direction) seg.length ++
      segsCells (advance cursor (opposite seg.direction) seg.length) rest

/-- All cells occupied by the snake (head included). -/
def traceCells (s : Snake) : List Point := segsCells s.head s.segments

/-- The cells of every segment after the first — exactly the cells tested by
`pointCollidesWithSnake` with `check_head = false`. -/
def bodyCells (s : Snake) : List Point :=
  match s.segments with
  | [] => []
  | seg :: rest => segsCells (advance s.head (opposite seg.direction) seg.length) rest

/-- Sum of all segment lengths: the snake's total body length. -/
def segmentLengthSum (segs : List Segment) : Int :=
  (segs.map Segment.length).sum

/-- snake.cpp `moveSnakeHead` (nsnake.cpp `Snake::moveHead`).  The C++ code
inserts a zero-length segment at the front on a direction change, then
advances the head by the front direction and increments the front length;
the two branches below are that net effect.  `front()` on an empty vector
is undefined behaviour; the embedding leaves such a snake unchanged. -/
def moveSnakeHead (s : Snake) (d : Direction) : Snake :=
  match s.segments with
  | [] => s
  | front :: rest =>
    if front.direction ≠ d then
      { head := advance s.head d 1, segments := ⟨d, 1⟩ :: front :: rest }
    else
      { head := advance s.head front.direction 1,
        segments := ⟨front.direction, front.length + 1⟩ :: rest }

/-- The segment-list part of snake.cpp `shrinkSnakeTail`: decrement the last
segment's length, deleting it if the length reaches zero (or below). -/
def shrinkSegments : List Segment → List Segment
  | [] => []
  | [back] =>
    if back.length - 1 ≤ 0 then [] else [⟨back.direction, back.length - 1⟩]
  | seg :: rest => seg :: shrinkSegments rest

/-- snake.cpp `shrinkSnakeTail` (nsnake.cpp `Snake::shrinkTail`). -/
def shrinkSnakeTail (s : Snake) : Snake :=
  { s with segments := shrinkSegments s.segments }

/-- snake.cpp `resetGame`: revive, clear score and message, re-centre the
snake as a single upward segment of length 3.  Note: the fruit is NOT
touched (nsnake.cpp `Game::reset` additionally calls `spawnFruit`). -/
def resetGame (g : Game) : Game :=
  { g with
    alive := true
    score := 0
    message := ""
    snake :=
      { head := ⟨g.board_size.width / 2, g.board_size.height / 2⟩
        segments := [⟨.up, 3⟩] } }

/-- One draw of `uniform_int_distribution(0, cells - 1)` from the stream. -/
def rngDraw (rng : Rng) (cells : Nat) : Nat × Rng :=
  (rng.seq rng.pos % cells, ⟨rng.seq, rng.pos + 1⟩)

/-- The rejection-sampling loop of `spawnFruit`: draw board cells until one
misses the snake.  The C++ loop is unbounded; fuel makes it total. -/
def spawnFruitLoop (board : Size) (s : Snake) (rng : Rng) : Nat → Option (Point × Rng)
  | 0 => none
  | Nat.succ fuel =>
    let cells := (board.width * board.height).toNat
    let drawn := rngDraw rng cells
    let i : Int := Int.ofNat drawn.1
    let cand : Point := ⟨i % board.width, i / board.width⟩
    if pointCollidesWithSnake cand s true then spawnFruitLoop board s drawn.2 fuel
    else some (cand, drawn.2)

/-- snake.cpp `spawnFruit` (nsnake.cpp `Game::spawnFruit`). -/
def spawnFruit (g : Game) (rng : Rng) (fuel : Nat) : Option (Game × Rng) :=
  (spawnFruitLoop g.board_size g.snake rng fuel).map fun fr =>
    ({ g with fruit := fr.1 }, fr.2)

/-- ncurses key codes used by the game (`KEY_DOWN` .. `KEY_ENTER`). -/
def KEY_DOWN : Int := 258

/-- ncurses `KEY_UP`. -/
def KEY_UP : Int := 259

/-- ncurses `KEY_LEFT`. -/
def KEY_LEFT : Int := 260

/-- ncurses `KEY_RIGHT`. -/
def KEY_RIGHT : Int := 261

/-- ncurses `KEY_ENTER`. -/
def KEY_ENTER : Int := 343

/-- The dead-state reset condition: `input == KEY_ENTER || '\n' || '\r'`. -/
def isConfirmInput (input : Int) : Bool :=
  decide (input = KEY_ENTER ∨ input = 10 ∨ input = 13)

/-- The input switch of `doTick`: arrow keys pick a direction, anything else
keeps the current front direction. -/
def inputDirection (input : Int) (current : Direction) : Direction :=
  if input = KEY_UP then .up
  else if input = KEY_RIGHT then .right
  else if input = KEY_DOWN then .down
  else if input = KEY_LEFT then .left
  else current

/-- Direction selection including the about-turn rejection of `doTick`. -/
def chooseDirection (input : Int) (current : Direction) : Direction :=
  let new_direction := inputDirection input current
  if new_direction = opposite current then current else new_direction

/-- The message set on a death tick. -/
def deathMessage : String := "You are dead. Press [Enter] to reset."

/-- The alive branch of `doTick`, given the front segment (C++ reads it with
`segments.front()`): choose a direction, snapshot the snake, move the head,
eat or shrink, then check for collision and possibly restore the snapshot. -/
def tickAliveCore (g : Game) (input : Int) (rng : Rng) (fuel : Nat)
    (front : Segment) : Option (Game × Rng) :=
  let d := chooseDirection input front.direction
  let moved := moveSnakeHead g.snake d
  let afterFruit : Option (Game × Rng) :=
    if moved.head = g.fruit then
      spawnFruit { g with snake := moved, score := g.score + 1 } rng fuel
    else
      some ({ g with snake := shrinkSnakeTail moved }, rng)
  afterFruit.map fun gr =>
    if snakeCollided gr.1.snake gr.1.board_size then
      ({ gr.1 with snake := g.snake, alive := false, message := deathMessage }, gr.2)
    else gr

/-- The alive branch of `doTick`; `segments.front()` on an empty vector is
undefined behaviour, modelled as `none`. -/
def tickAlive (g : Game) (input : Int) (rng : Rng) (fuel : Nat) : Option (Game × Rng) :=
  match g.snake.segments with
  | [] => none
  | front :: _ => tickAliveCore g input rng fuel front

/-- snake.cpp `doTick`: when dead, only a confirm key resets (and the
`snake.cpp` reset keeps the old fruit); when alive, run the move. -/
def doTick (g : Game) (input : Int) (rng : Rng) (fuel : Nat) : Option (Game × Rng) :=
  if g.alive then tickAlive g input rng fuel
  else if isConfirmInput input then some (resetGame g, rng)
  else some (g, rng)

/-- nsnake.cpp `Game::reset`: the same field updates as `resetGame`,
followed by `spawnFruit`. -/
def gameReset (g : Game) (rng : Rng) (fuel : Nat) : Option (Game × Rng) :=
  spawnFruit (resetGame g) rng fuel

/-- nsnake.cpp `Game::doTick`: identical to `doTick` except that the
dead-branch reset also spawns a fruit. -/
def gameDoTick (g : Game) (input : Int) (rng : Rng) (fuel : Nat) : Option (Game × Rng) :=
  if g.alive then tickAlive g input rng fuel
  else if isConfirmInput input then gameReset g rng fuel
  else some (g, rng)

/-- snake.cpp `Field`: a size plus a row-major `vector<bool>` pixel buffer. -/
structure Field where
  size : Size
  data : List Bool
deriving DecidableEq, Repr

/-- snake.cpp `makeField`. -/
def makeField (size : Size) : Field :=
  ⟨size, List.replicate (size.width * size.height).toNat false⟩

/-- snake.cpp `getPixel`: read `data[y * width + x]`. -/
def getPixel (field : Field) (location : Point) : Bool :=
  field.data.getD (location.y * field.size.width + location.x).toNat false

/-- snake.cpp `drawPixel`: write `data[y * width + x]`. -/
def drawPixel (field : Field) (location : Point) (value : Bool) : Field :=
  { field with
    data := field.data.set (location.y * field.size.width + location.x).toNat value }

/-- snake.cpp `clearField`: set every pixel to false. -/
def clearField (field : Field) : Field :=
  { field with data := List.replicate field.data.length false }

/-- The loop of snake.cpp `drawLine`: draw `n` cells walking from `point`. -/
def drawLineGo (field : Field) (point : Point) (d : Direction) : Nat → Field × Point
  | 0 => (field, point)
  | Nat.succ n => drawLineGo (drawPixel field point true) (advance point d 1) d n

/-- snake.cpp `drawLine`: draw a run of cells, returning the end point.
A non-positive length draws nothing (the `for` loop body never runs). -/
def drawLine (field : Field) (start : Point) (d : Direction) (length : Int) :
    Field × Point :=
  drawLineGo field start d length.toNat

/-- The loop of snake.cpp `drawSnake` over the segment list. -/
def drawSegs (field : Field) (cursor : Point) : List Segment → Field
  | [] => field
  | seg :: rest =>
    let r := drawLine field cursor (opposite seg.direction) seg.length
    drawSegs r.1 r.2 rest

/-- snake.cpp `drawSnake`. -/
def drawSnake (field : Field) (s : Snake) : Field :=
  drawSegs field s.head s.segments

/-- Unicode upper half block, `▀`. -/
def upper_block : Nat := 0x2580

/-- Unicode lower half block, `▄`. -/
def lower_block : Nat := 0x2584

/-- Unicode full block, `█`. -/
def full_block : Nat := 0x2588

/-- The space character, ` `. -/
def empty_block : Nat := 0x20

/-- The glyph conditional of snake.cpp `printField`:
`top && bottom ? full_block : top ? upper_block : bottom ? lower_block : empty_block`. -/
def printFieldGlyph (top bottom : Bool) : Nat :=
  if top && bottom then full_block
  else if top then upper_block
  else if bottom then lower_block
  else empty_block

/-- The glyph chosen by `printField` for terminal row `i / 2`, column `j`:
`top` is pixel `(j, i)`, `bottom` is pixel `(j, i+1)` guarded by the bounds
check `i + 1 < field.size.height`. -/
def printFieldCell (field : Field) (i j : Int) : Nat :=
  printFieldGlyph (getPixel field ⟨j, i⟩)
    (decide (i + 1 < field.size.height) && getPixel field ⟨j, i + 1⟩)

/-- The glyph table as the spec states it:
`{00 → empty, 10 → upper, 01 → lower, 11 → full}`. -/
def glyphTable (top bottom : Bool) : Nat :=
  match top, bottom with
  | false, false => empty_block
  | true, false => upper_block
  | false, true => lower_block
  | true, true => full_block

/-- The states the nsnake.cpp game loop can reach: `main` creates a game
with a positive board (20 × 20) and calls `Game::reset`, then repeatedly
calls `Game::doTick`. -/
inductive GameReachable : Game → Prop where
  | reset : ∀ (g0 : Game) (rng : Rng) (fuel : Nat) (g : Game) (rng' : Rng),
      0 < g0.board_size.width → 0 < g0.board_size.height →
      gameReset g0 rng fuel = some (g, rng') → GameReachable g
  | tick : ∀ (g : Game) (input : Int) (rng : Rng) (fuel : Nat) (g' : Game) (rng' : Rng),
      GameReachable g → gameDoTick g input rng fuel = some (g', rng') →
      GameReachable g'

/-- The inductive invariant of reachable nsnake.cpp game states. -/
structure Inv (g : Game) : Prop where
  posW : 0 < g.board_size.width
  posH : 0 < g.board_size.height
  scoreNN : 0 ≤ g.score
  segLens : ∀ seg ∈ g.snake.segments, 1 ≤ seg.length
  sumEq : segmentLengthSum g.snake.segments = g.score + 3
  fruitIn : pointInsideArea g.fruit g.board_size = true
  fruitOff : g.fruit ∉ traceCells g.snake

theorem advance_zero (p : Point) (d : Direction) : advance p d 0 = p := by
  cases d <;> simp [advance]

theorem advance_advance (p : Point) (d : Direction) (a b : Int) :
    advance (advance p d a) d b = advance p d (a + b) := by
  cases d <;> simp [advance, Point.mk.injEq] <;> ring

theorem advance_opposite (p : Point) (d : Direction) (a b : Int) :
    advance (advance p d a) (opposite d) b = advance p d (a - b) := by
  cases d <;> simp [advance, opposite, Point.mk.injEq] <;> ring

theorem advance_neg (p : Point) (d : Direction) (a : Int) :
    advance p (opposite d) a = advance p d (-a) := by
  cases d <;> simp [advance, opposite, Point.mk.injEq] <;> ring

theorem mem_lineCells {p start : Point} {d : Direction} {len : Int} :
    p ∈ lineCells start d len ↔
      ∃ k : Nat, k < len.toNat ∧ p = advance start d (Int.ofNat k) := by
  simp only [lineCells, List.mem_map, List.mem_range]
  exact exists_congr fun k => and_congr_right fun _ => eq_comm

theorem pointOnLine_iff {p start : Point} {d : Direction} {len : Int} :
    pointOnLine p start d len = true ↔ p ∈ lineCells start d len := by
  obtain ⟨px, py⟩ := p
  obtain ⟨sx, sy⟩ := start
  rw [mem_lineCells]
  cases d
  case up =>
    simp only [pointOnLine, advance, decide_eq_true_eq, Point.mk.injEq, Int.ofNat_eq_coe]
    constructor
    · rintro ⟨h1, h2, h3⟩
      exact ⟨(sy - py).toNat, by omega, by omega, by omega⟩
    · rintro ⟨k, hk, h1, h2⟩
      omega
  case down =>
    simp only [pointOnLine, advance, decide_eq_true_eq, Point.mk.injEq, Int.ofNat_eq_coe]
    constructor
    · rintro ⟨h1, h2, h3⟩
      exact ⟨(py - sy).toNat, by omega, by omega, by omega⟩
    · rintro ⟨k, hk, h1, h2⟩
      omega
  case left =>
    simp only [pointOnLine, advance, decide_eq_true_eq, Point.mk.injEq, Int.ofNat_eq_coe]
    constructor
    · rintro ⟨h1, h2, h3⟩
      exact ⟨(sx - px).toNat, by omega, by omega, by omega⟩
    · rintro ⟨k, hk, h1, h2⟩
      omega
  case right =>
    simp only [pointOnLine, advance, decide_eq_true_eq, Point.mk.injEq, Int.ofNat_eq_coe]
    constructor
    · rintro ⟨h1, h2, h3⟩
      exact ⟨(px - sx).toNat, by omega, by omega, by omega⟩
    · rintro ⟨k, hk, h1, h2⟩
      omega

theorem lineCells_nodup (start : Point) (d : Direction) (len : Int) :
    (lineCells start d len).Nodup := by
  refine List.Nodup.map ?_ (List.nodup_range len.toNat)
  intro a b hab
  cases d <;>
    simp only [advance, Point.mk.injEq, Int.ofNat_eq_coe] at hab <;> omega

theorem lineCells_subset {start : Point} {d : Direction} {l1 l2 : Int} (h : l1 ≤ l2) :
    lineCells start d l1 ⊆ lineCells start d l2 := by
  intro p hp
  rw [mem_lineCells] at hp ⊢
  obtain ⟨k, hk, rfl⟩ := hp
  exact ⟨k, by omega, rfl⟩

theorem lineCells_one (start : Point) (d : Direction) :
    lineCells start d 1 = [start] := by
  simp [lineCells, List.range_succ, advance_zero]

theorem lineCells_succ {len : Int} (start : Point) (d : Direction) (h : 0 ≤ len) :
    lineCells start d (len + 1) = start :: lineCells (advance start d 1) d len := by
  have ht : (len + 1).toNat = len.toNat + 1 := by omega
  rw [lineCells, ht, List.range_succ_eq_map, List.map_cons, List.map_map, lineCells]
  congr 1
  · exact advance_zero start d
  · refine List.map_congr_left fun k _ => ?_
    rw [Function.comp_apply, advance_advance]
    congr 1
    simp only [Int.ofNat_eq_coe]
    omega

theorem collideFrom_true_iff {p : Point} :
    ∀ (segs : List Segment) (cursor : Point),
      collideFrom p cursor true segs = true ↔ p ∈ segsCells cursor segs := by
  intro segs
  induction segs with
  | nil => intro cursor; simp [collideFrom, segsCells]
  | cons seg rest ih =>
    intro cursor
    simp [collideFrom, segsCells, pointOnLine_iff, ih]

theorem pointCollides_head_iff (p : Point) (s : Snake) :
    pointCollidesWithSnake p s true = true ↔ p ∈ traceCells s :=
  collideFrom_true_iff s.segments s.head

theorem pointCollides_body_iff (p : Point) (s : Snake) :
    pointCollidesWithSnake p s false = true ↔ p ∈ bodyCells s := by
  obtain ⟨head, segs⟩ := s
  cases segs with
  | nil => simp [pointCollidesWithSnake, collideFrom, bodyCells]
  | cons seg rest =>
    simp [pointCollidesWithSnake, collideFrom, bodyCells, collideFrom_true_iff]

theorem traceCells_cons {s : Snake} {front : Segment} {rest : List Segment}
    (hseg : s.segments = front :: rest) :
    traceCells s =
      lineCells s.head (opposite front.direction) front.length ++ bodyCells s := by
  obtain ⟨head, segs⟩ := s
  simp only at hseg
  subst hseg
  simp [traceCells, bodyCells, segsCells]

theorem count_head_le_one {s : Snake} (h : s.head ∉ bodyCells s) :
    (traceCells s).count s.head ≤ 1 := by
  obtain ⟨hd, segs⟩ := s
  cases segs with
  | nil => simp [traceCells, segsCells]
  | cons front rest =>
    rw [traceCells_cons rfl, List.count_append]
    have h0 : List.count hd (bodyCells ⟨hd, front :: rest⟩) = 0 :=
      List.count_eq_zero.mpr h
    have h1 : List.count hd (lineCells hd (opposite front.direction) front.length) ≤ 1 :=
      List.nodup_iff_count_le_one.mp (lineCells_nodup _ _ _) hd
    simp only at h0 ⊢
    omega

theorem snakeCollided_false_iff {s : Snake} {b : Size} :
    snakeCollided s b = false ↔
      s.head ∉ bodyCells s ∧ pointInsideArea s.head b = true := by
  unfold snakeCollided
  rw [Bool.or_eq_false_iff]
  constructor
  · rintro ⟨h1, h2⟩
    constructor
    · intro hm
      rw [(pointCollides_body_iff _ _).mpr hm] at h1
      simp at h1
    · cases hin : pointInsideArea s.head b with
      | true => rfl
      | false => rw [hin] at h2; simp at h2
  · rintro ⟨h1, h2⟩
    constructor
    · cases hc : pointCollidesWithSnake s.head s false with
      | false => rfl
      | true => exact absurd ((pointCollides_body_iff _ _).mp hc) h1
    · rw [h2]; rfl

theorem moveSnakeHead_head {s : Snake} {front : Segment} {rest : List Segment}
    (d : Direction) (hseg : s.segments = front :: rest) :
    (moveSnakeHead s d).head = advance s.head d 1 := by
  obtain ⟨hd, segs⟩ := s
  simp only at hseg
  subst hseg
  by_cases hdir : front.direction = d
  · simp [moveSnakeHead, hdir]
  · simp [moveSnakeHead, hdir]

theorem moveSnakeHead_ne {s : Snake} {front : Segment} {rest : List Segment}
    (d : Direction) (hseg : s.segments = front :: rest) :
    (moveSnakeHead s d).segments ≠ [] := by
  obtain ⟨hd, segs⟩ := s
  simp only at hseg
  subst hseg
  by_cases hdir : front.direction = d <;> simp [moveSnakeHead, hdir]

theorem moveSnakeHead_front {s : Snake} {front : Segment} {rest : List Segment}
    (d : Direction) (hseg : s.segments = front :: rest) :
    ((moveSnakeHead s d).segments.head?.map Segment.direction) = some d := by
  obtain ⟨hd, segs⟩ := s
  simp only at hseg
  subst hseg
  by_cases hdir : front.direction = d <;> simp [moveSnakeHead, hdir]

theorem moveSnakeHead_sum {s : Snake} {front : Segment} {rest : List Segment}
    (d : Direction) (hseg : s.segments = front :: rest) :
    segmentLengthSum (moveSnakeHead s d).segments =
      segmentLengthSum s.segments + 1 := by
  obtain ⟨hd, segs⟩ := s
  simp only at hseg
  subst hseg
  by_cases hdir : front.direction = d <;>
    simp [moveSnakeHead, hdir, segmentLengthSum] <;> ring

theorem moveSnakeHead_lens {s : Snake} {front : Segment} {rest : List Segment}
    (d : Direction) (hseg : s.segments = front :: rest)
    (h : ∀ seg ∈ s.segments, 1 ≤ seg.length) :
    ∀ seg ∈ (moveSnakeHead s d).segments, 1 ≤ seg.length := by
  obtain ⟨hd, segs⟩ := s
  simp only at hseg h
  subst hseg
  by_cases hdir : front.direction = d
  · simp only [moveSnakeHead, hdir, ite_not, if_pos rfl]
    intro seg hm
    rcases List.mem_cons.mp hm with h1 | h2
    · subst h1
      have := h front (List.mem_cons_self _ _)
      simpa using by omega
    · exact h seg (List.mem_cons_of_mem _ h2)
  · simp only [moveSnakeHead, if_pos hdir]
    intro seg hm
    rcases List.mem_cons.mp hm with h1 | h2
    · subst h1; simp
    · exact h seg h2

theorem moveSnakeHead_turn (hd : Point) (front : Segment) (rest : List Segment)
    (d : Direction) (hdir : front.direction ≠ d) :
    moveSnakeHead ⟨hd, front :: rest⟩ d =
      ⟨advance hd d 1, ⟨d, 1⟩ :: front :: rest⟩ := by
  simp [moveSnakeHead, hdir]

theorem moveSnakeHead_straight (hd : Point) (fd : Direction) (fl : Int)
    (rest : List Segment) :
    moveSnakeHead ⟨hd, ⟨fd, fl⟩ :: rest⟩ fd =
      ⟨advance hd fd 1, ⟨fd, fl + 1⟩ :: rest⟩ := by
  simp [moveSnakeHead]

theorem traceCells_moveSnakeHead {s : Snake} {front : Segment} {rest : List Segment}
    (d : Direction) (hseg : s.segments = front :: rest) (hlen : 0 ≤ front.length) :
    traceCells (moveSnakeHead s d) = advance s.head d 1 :: traceCells s := by
  obtain ⟨hd, segs⟩ := s
  simp only at hseg
  subst hseg
  by_cases hdir : front.direction = d
  · obtain ⟨fd, fl⟩ := front
    simp only at hdir hlen
    subst hdir
    rw [moveSnakeHead_straight]
    simp only [traceCells, segsCells]
    rw [lineCells_succ _ _ hlen]
    rw [advance_opposite, advance_opposite]
    rw [show (1 : Int) - 1 = 0 from rfl, advance_zero]
    rw [show (1 : Int) - (fl + 1) = -fl by ring]
    rw [← advance_neg]
    rw [List.cons_append]
  · rw [moveSnakeHead_turn hd front rest d hdir]
    simp only [traceCells, segsCells]
    rw [lineCells_one, advance_opposite]
    rw [show (1 : Int) - 1 = 0 from rfl, advance_zero]
    rw [List.singleton_append]

theorem bodyCells_moveSnakeHead_subset {s : Snake} {front : Segment}
    {rest : List Segment} (d : Direction) (hseg : s.segments = front :: rest) :
    ∀ p, p ∈ bodyCells (moveSnakeHead s d) → p ∈ traceCells s := by
  obtain ⟨hd, segs⟩ := s
  simp only at hseg
  subst hseg
  intro p hp
  by_cases hdir : front.direction = d
  · obtain ⟨fd, fl⟩ := front
    simp only at hdir
    subst hdir
    rw [moveSnakeHead_straight] at hp
    simp only [bodyCells] at hp
    rw [advance_opposite] at hp
    rw [show (1 : Int) - (fl + 1) = -fl by ring] at hp
    rw [← advance_neg] at hp
    rw [traceCells_cons rfl]
    exact List.mem_append_right _ (by simpa [bodyCells] using hp)
  · rw [moveSnakeHead_turn hd front rest d hdir] at hp
    simp only [bodyCells] at hp
    rw [advance_opposite] at hp
    rw [show (1 : Int) - 1 = 0 from rfl, advance_zero] at hp
    exact hp

theorem shrinkSegments_single (back : Segment) :
    shrinkSegments [back] =
      if back.length - 1 ≤ 0 then [] else [⟨back.direction, back.length - 1⟩] := rfl

theorem shrinkSegments_cons_cons (seg r : Segment) (rs : List Segment) :
    shrinkSegments (seg :: r :: rs) = seg :: shrinkSegments (r :: rs) := rfl

theorem shrinkSegments_sum {segs : List Segment} (hne : segs ≠ [])
    (hlens : ∀ seg ∈ segs, 1 ≤ seg.length) :
    segmentLengthSum (shrinkSegments segs) = segmentLengthSum segs - 1 := by
  induction segs with
  | nil => exact absurd rfl hne
  | cons seg rest ih =>
    cases rest with
    | nil =>
      have hl := hlens seg (List.mem_cons_self _ _)
      by_cases hz : seg.length - 1 ≤ 0
      · rw [shrinkSegments_single, if_pos hz]
        simp only [segmentLengthSum, List.map_nil, List.sum_nil, List.map_cons,
          List.sum_cons]
        omega
      · rw [shrinkSegments_single, if_neg hz]
        simp only [segmentLengthSum, List.map_cons, List.map_nil, List.sum_cons,
          List.sum_nil]
        omega
    | cons r rs =>
      have := ih (by simp) (fun x hx => hlens x (List.mem_cons_of_mem _ hx))
      rw [shrinkSegments_cons_cons]
      simp only [segmentLengthSum, List.map_cons, List.sum_cons] at this ⊢
      omega

theorem shrinkSegments_lens {segs : List Segment}
    (hlens : ∀ seg ∈ segs, 1 ≤ seg.length) :
    ∀ seg ∈ shrinkSegments segs, 1 ≤ seg.length := by
  induction segs with
  | nil => simp [shrinkSegments]
  | cons seg rest ih =>
    cases rest with
    | nil =>
      by_cases hz : seg.length - 1 ≤ 0
      · rw [shrinkSegments_single, if_pos hz]
        simp
      · rw [shrinkSegments_single, if_neg hz]
        intro x hx
        rcases List.mem_singleton.mp hx with rfl
        show 1 ≤ seg.length - 1
        omega
    | cons r rs =>
      rw [shrinkSegments_cons_cons]
      intro x hx
      rcases List.mem_cons.mp hx with rfl | h2
      · exact hlens x (List.mem_cons_self _ _)
      · exact ih (fun y hy => hlens y (List.mem_cons_of_mem _ hy)) x h2

theorem segsCells_shrink_subset (segs : List Segment) :
    ∀ (cursor : Point) (p : Point),
      p ∈ segsCells cursor (shrinkSegments segs) → p ∈ segsCells cursor segs := by
  induction segs with
  | nil => intro cursor p hp; simpa [shrinkSegments] using hp
  | cons seg rest ih =>
    intro cursor p hp
    cases rest with
    | nil =>
      by_cases hz : seg.length - 1 ≤ 0
      · rw [shrinkSegments_single, if_pos hz] at hp
        simp [segsCells] at hp
      · rw [shrinkSegments_single, if_neg hz] at hp
        simp only [segsCells, List.append_nil] at hp ⊢
        exact lineCells_subset (by omega) hp
    | cons r rs =>
      rw [shrinkSegments_cons_cons] at hp
      simp only [segsCells] at hp ⊢
      rcases List.mem_append.mp hp with h1 | h1
      · exact List.mem_append_left _ h1
      · exact List.mem_append_right _ (ih _ p h1)

theorem traceCells_shrink_subset {s : Snake} {p : Point}
    (hp : p ∈ traceCells (shrinkSnakeTail s)) : p ∈ traceCells s :=
  segsCells_shrink_subset s.segments s.head p hp

theorem spawnFruitLoop_sound {board : Size} {s : Snake} {p : Point} :
    ∀ {fuel : Nat} {rng rng' : Rng},
      spawnFruitLoop board s rng fuel = some (p, rng') →
      pointCollidesWithSnake p s true = false ∧
        (0 < board.width → 0 < board.height → pointInsideArea p board = true) := by
  intro fuel
  induction fuel with
  | zero => intro rng rng' h; simp [spawnFruitLoop] at h
  | succ n ih =>
    intro rng rng' h
    simp only [spawnFruitLoop, rngDraw] at h
    split at h
    · exact ih h
    · next hc =>
      simp only [Option.some.injEq, Prod.mk.injEq] at h
      obtain ⟨h1, h2⟩ := h
      subst h1
      refine ⟨by simpa using hc, ?_⟩
      intro hw hh
      have hcells : 0 < (board.width * board.height).toNat := by
        have := mul_pos hw hh
        omega
      have hmod : rng.seq rng.pos % (board.width * board.height).toNat <
          (board.width * board.height).toNat := Nat.mod_lt _ hcells
      have hi : (Int.ofNat (rng.seq rng.pos % (board.width * board.height).toNat)) <
          board.width * board.height := by
        simp only [Int.ofNat_eq_coe]
        omega
      have hi0 : (0 : Int) ≤
          Int.ofNat (rng.seq rng.pos % (board.width * board.height).toNat) := by
        simp only [Int.ofNat_eq_coe]
        omega
      rw [pointInsideArea, decide_eq_true_eq]
      refine ⟨Int.emod_nonneg _ (by omega), Int.emod_lt_of_pos _ hw,
        Int.ediv_nonneg hi0 (by omega), ?_⟩
      rw [Int.ediv_lt_iff_lt_mul hw]
      rw [mul_comm board.height board.width]
      exact hi

theorem spawnFruit_some {g : Game} {rng : Rng} {fuel : Nat} {g' : Game} {rng' : Rng}
    (h : spawnFruit g rng fuel = some (g', rng')) :
    g'.alive = g.alive ∧ g'.score = g.score ∧ g'.board_size = g.board_size ∧
      g'.snake = g.snake ∧ g'.message = g.message ∧
      pointCollidesWithSnake g'.fruit g.snake true = false ∧
      (0 < g.board_size.width → 0 < g.board_size.height →
        pointInsideArea g'.fruit g.board_size = true) := by
  unfold spawnFruit at h
  cases hl : spawnFruitLoop g.board_size g.snake rng fuel with
  | none => rw [hl] at h; simp at h
  | some fr =>
    obtain ⟨p, r⟩ := fr
    rw [hl] at h
    simp only [Option.map_some', Option.some.injEq, Prod.mk.injEq] at h
    obtain ⟨h1, h2⟩ := h
    subst h1
    have hs := spawnFruitLoop_sound hl
    exact ⟨rfl, rfl, rfl, rfl, rfl, hs.1, hs.2⟩

theorem tickAlive_eq_core {g : Game} {front : Segment} {rest : List Segment}
    (hseg : g.snake.segments = front :: rest) (input : Int) (rng : Rng) (fuel : Nat) :
    tickAlive g input rng fuel = tickAliveCore g input rng fuel front := by
  unfold tickAlive
  rw [hseg]

theorem tickAlive_char {g : Game} {input : Int} {rng : Rng} {fuel : Nat}
    {g' : Game} {rng' : Rng} {front : Segment} {rest : List Segment}
    (hseg : g.snake.segments = front :: rest)
    (h : tickAlive g input rng fuel = some (g', rng')) :
    ∃ gmid : Game,
      (((moveSnakeHead g.snake (chooseDirection input front.direction)).head = g.fruit ∧
          spawnFruit
            { g with
              snake := moveSnakeHead g.snake (chooseDirection input front.direction)
              score := g.score + 1 } rng fuel = some (gmid, rng')) ∨
        ((moveSnakeHead g.snake (chooseDirection input front.direction)).head ≠ g.fruit ∧
          gmid = { g with
            snake :=
              shrinkSnakeTail
                (moveSnakeHead g.snake (chooseDirection input front.direction)) } ∧
          rng' = rng)) ∧
      ((snakeCollided gmid.snake gmid.board_size = true ∧
          g' = { gmid with snake := g.snake, alive := false, message := deathMessage }) ∨
        (snakeCollided gmid.snake gmid.board_size = false ∧ g' = gmid)) := by
  rw [tickAlive_eq_core hseg] at h
  simp only [tickAliveCore] at h
  split at h
  · next heat =>
    cases hsp : spawnFruit
        { g with
          snake := moveSnakeHead g.snake (chooseDirection input front.direction)
          score := g.score + 1 } rng fuel with
    | none => rw [hsp] at h; simp at h
    | some gr =>
      obtain ⟨gm, r2⟩ := gr
      rw [hsp] at h
      simp only [Option.map_some', Option.some.injEq] at h
      split at h
      · next hcol =>
        rw [Prod.mk.injEq] at h
        obtain ⟨h1, h2⟩ := h
        subst h2
        exact ⟨gm, .inl ⟨heat, rfl⟩, .inl ⟨hcol, h1.symm⟩⟩
      · next hcol =>
        rw [Prod.mk.injEq] at h
        obtain ⟨h1, h2⟩ := h
        subst h2
        exact ⟨gm, .inl ⟨heat, rfl⟩, .inr ⟨by simpa using hcol, h1.symm⟩⟩
  · next hneat =>
    simp only [Option.map_some', Option.some.injEq] at h
    split at h
    · next hcol =>
      rw [Prod.mk.injEq] at h
      obtain ⟨h1, h2⟩ := h
      exact ⟨_, .inr ⟨hneat, rfl, h2.symm⟩, .inl ⟨hcol, h1.symm⟩⟩
    · next hcol =>
      rw [Prod.mk.injEq] at h
      obtain ⟨h1, h2⟩ := h
      exact ⟨_, .inr ⟨hneat, rfl, h2.symm⟩, .inr ⟨by simpa using hcol, h1.symm⟩⟩

theorem eat_no_collision {g : Game} {front : Segment} {rest : List Segment}
    {d : Direction} (hseg : g.snake.segments = front :: rest)
    (hin : pointInsideArea g.fruit g.board_size = true)
    (hoff : g.fruit ∉ traceCells g.snake)
    (heat : (moveSnakeHead g.snake d).head = g.fruit) :
    snakeCollided (moveSnakeHead g.snake d) g.board_size = false := by
  rw [snakeCollided_false_iff]
  constructor
  · rw [heat]
    intro hm
    exact hoff (bodyCells_moveSnakeHead_subset d hseg _ hm)
  · rw [heat]
    exact hin

theorem traceCells_reset_snake (c : Point) :
    traceCells ⟨c, [⟨.up, 3⟩]⟩ = [c, advance c .down 1, advance c .down 2] := by
  simp only [traceCells, segsCells, lineCells, opposite]
  rw [show (3 : Int).toNat = 3 from rfl]
  rw [show List.range 3 = [0, 1, 2] from rfl]
  simp only [List.map_cons, List.map_nil, List.append_nil]
  rw [show Int.ofNat 0 = 0 from rfl, advance_zero]
  rw [show Int.ofNat 1 = 1 from rfl, show Int.ofNat 2 = 2 from rfl]

theorem reset_head_safe {w h : Int} (hw : 0 < w) (hh : 0 < h) :
    pointInsideArea ⟨w / 2, h / 2⟩ ⟨w, h⟩ = true ∧
      (traceCells ⟨⟨w / 2, h / 2⟩, [⟨.up, 3⟩]⟩).count ⟨w / 2, h / 2⟩ ≤ 1 := by
  constructor
  · simp only [pointInsideArea, decide_eq_true_eq]
    omega
  · exact @count_head_le_one ⟨⟨w / 2, h / 2⟩, [⟨.up, 3⟩]⟩ (by simp [bodyCells, segsCells])

theorem gameReset_sound {g0 : Game} {rng : Rng} {fuel : Nat} {g : Game} {rng' : Rng}
    (h : gameReset g0 rng fuel = some (g, rng')) :
    g.alive = true ∧ g.score = 0 ∧ g.message = "" ∧
      g.board_size = g0.board_size ∧
      g.snake = ⟨⟨g0.board_size.width / 2, g0.board_size.height / 2⟩, [⟨.up, 3⟩]⟩ ∧
      pointCollidesWithSnake g.fruit g.snake true = false ∧
      (0 < g0.board_size.width → 0 < g0.board_size.height →
        pointInsideArea g.fruit g.board_size = true) := by
  unfold gameReset at h
  obtain ⟨h1, h2, h3, h4, h5, h6, h7⟩ := spawnFruit_some h
  refine ⟨h1, h2, h5, h3, h4, ?_, ?_⟩
  · rw [h4]
    exact h6
  · intro hw hh
    rw [h3]
    exact h7 hw hh

theorem inv_gameReset {g0 : Game} {rng : Rng} {fuel : Nat} {g : Game} {rng' : Rng}
    (hw : 0 < g0.board_size.width) (hh : 0 < g0.board_size.height)
    (h : gameReset g0 rng fuel = some (g, rng')) : Inv g := by
  obtain ⟨h1, h2, h3, h4, h5, h6, h7⟩ := gameReset_sound h
  refine ⟨by rw [h4]; exact hw, by rw [h4]; exact hh, by simp [h2],
    ?_, ?_, h7 hw hh, ?_⟩
  · rw [h5]
    intro seg hm
    rcases List.mem_singleton.mp hm with rfl
    norm_num
  · rw [h5, h2]
    norm_num [segmentLengthSum]
  · intro hm
    rw [(pointCollides_head_iff _ _).mpr hm] at h6
    simp at h6

theorem tickAlive_inv_delta {g : Game} {input : Int} {rng : Rng} {fuel : Nat}
    {g' : Game} {rng' : Rng} {front : Segment} {rest : List Segment}
    (inv : Inv g) (hseg : g.snake.segments = front :: rest)
    (h : tickAlive g input rng fuel = some (g', rng')) :
    Inv g' ∧
      ((moveSnakeHead g.snake (chooseDirection input front.direction)).head = g.fruit →
        g'.score = g.score + 1 ∧
          segmentLengthSum g'.snake.segments = segmentLengthSum g.snake.segments + 1) ∧
      ((moveSnakeHead g.snake (chooseDirection input front.direction)).head ≠ g.fruit →
        g'.score = g.score ∧
          segmentLengthSum g'.snake.segments = segmentLengthSum g.snake.segments) := by
  obtain ⟨gmid, hstep, hcol⟩ := tickAlive_char hseg h
  have hfl : 1 ≤ front.length :=
    inv.segLens front (by rw [hseg]; exact List.mem_cons_self _ _)
  rcases hstep with ⟨heat, hsp⟩ | ⟨hneat, hgmid, hrng⟩
  · obtain ⟨ha, hs2, hb, hsn, hm, hfru, hfin⟩ := spawnFruit_some hsp
    have hnocol : snakeCollided gmid.snake gmid.board_size = false := by
      rw [hsn, hb]
      exact eat_no_collision hseg inv.fruitIn inv.fruitOff heat
    rcases hcol with ⟨hc, _⟩ | ⟨_, rfl⟩
    · rw [hnocol] at hc
      cases hc
    · have hsum : segmentLengthSum g'.snake.segments =
          segmentLengthSum g.snake.segments + 1 := by
        rw [hsn]
        exact moveSnakeHead_sum _ hseg
      refine ⟨⟨?_, ?_, ?_, ?_, ?_, ?_, ?_⟩, ?_, ?_⟩
      · rw [hb]; exact inv.posW
      · rw [hb]; exact inv.posH
      · rw [hs2]
        have := inv.scoreNN
        show (0 : Int) ≤ g.score + 1
        omega
      · rw [hsn]
        exact moveSnakeHead_lens _ hseg inv.segLens
      · rw [hsum, hs2, inv.sumEq]
        show g.score + 3 + 1 = g.score + 1 + 3
        ring
      · have hx := hfin inv.posW inv.posH
        rw [hb]
        exact hx
      · rw [hsn]
        intro hm2
        rw [(pointCollides_head_iff _ _).mpr hm2] at hfru
        simp at hfru
      · intro _
        refine ⟨?_, hsum⟩
        rw [hs2]
      · intro hneat2
        exact absurd heat hneat2
  · subst hgmid
    subst hrng
    have hmsum :=
      moveSnakeHead_sum (chooseDirection input front.direction) hseg
    have hmlens :=
      moveSnakeHead_lens (chooseDirection input front.direction) hseg inv.segLens
    have hmne : (moveSnakeHead g.snake (chooseDirection input front.direction)).segments ≠ [] :=
      moveSnakeHead_ne _ hseg
    have hssum : segmentLengthSum
        (shrinkSnakeTail
          (moveSnakeHead g.snake (chooseDirection input front.direction))).segments =
        segmentLengthSum g.snake.segments := by
      show segmentLengthSum
          (shrinkSegments
            (moveSnakeHead g.snake (chooseDirection input front.direction)).segments) = _
      rw [shrinkSegments_sum hmne hmlens]
      omega
    have hslens : ∀ seg ∈
        (shrinkSnakeTail
          (moveSnakeHead g.snake (chooseDirection input front.direction))).segments,
        1 ≤ seg.length := shrinkSegments_lens hmlens
    rcases hcol with ⟨hc, rfl⟩ | ⟨hc, rfl⟩
    · refine ⟨⟨inv.posW, inv.posH, inv.scoreNN, inv.segLens, inv.sumEq,
        inv.fruitIn, inv.fruitOff⟩, ?_, ?_⟩
      · intro heat2
        exact absurd heat2 hneat
      · intro _
        exact ⟨rfl, rfl⟩
    · refine ⟨⟨inv.posW, inv.posH, inv.scoreNN, hslens, ?_, inv.fruitIn, ?_⟩, ?_, ?_⟩
      · show segmentLengthSum
            (shrinkSnakeTail
              (moveSnakeHead g.snake (chooseDirection input front.direction))).segments =
            g.score + 3
        rw [hssum]
        exact inv.sumEq
      · show g.fruit ∉ traceCells
          (shrinkSnakeTail (moveSnakeHead g.snake (chooseDirection input front.direction)))
        intro hm2
        have hm3 := traceCells_shrink_subset hm2
        rw [traceCells_moveSnakeHead _ hseg (by omega)] at hm3
        rcases List.mem_cons.mp hm3 with h1 | h1
        · apply hneat
          rw [moveSnakeHead_head _ hseg]
          exact h1.symm
        · exact inv.fruitOff h1
      · intro heat2
        exact absurd heat2 hneat
      · intro _
        exact ⟨rfl, hssum⟩

theorem inv_gameDoTick {g : Game} {input : Int} {rng : Rng} {fuel : Nat}
    {g' : Game} {rng' : Rng} (inv : Inv g)
    (h : gameDoTick g input rng fuel = some (g', rng')) : Inv g' := by
  unfold gameDoTick at h
  by_cases ha : g.alive = true
  · rw [if_pos ha] at h
    cases hseg : g.snake.segments with
    | nil =>
      unfold tickAlive at h
      rw [hseg] at h
      cases h
    | cons front rest => exact (tickAlive_inv_delta inv hseg h).1
  · rw [if_neg ha] at h
    by_cases hc : isConfirmInput input = true
    · rw [if_pos hc] at h
      exact inv_gameReset inv.posW inv.posH h
    · rw [if_neg hc] at h
      simp only [Option.some.injEq, Prod.mk.injEq] at h
      obtain ⟨h1, _⟩ := h
      rw [← h1]
      exact inv

theorem reachable_inv {g : Game} (h : GameReachable g) : Inv g := by
  induction h with
  | reset g0 rng fuel g rng' hw hh hr => exact inv_gameReset hw hh hr
  | tick g input rng fuel g' rng' hre hstep ih => exact inv_gameDoTick ih hstep

theorem tickAlive_death {g : Game} {input : Int} {rng : Rng} {fuel : Nat}
    {g' : Game} {rng' : Rng} (halive : g.alive = true)
    (hin : pointInsideArea g.fruit g.board_size = true)
    (hoff : g.fruit ∉ traceCells g.snake)
    (h : tickAlive g input rng fuel = some (g', rng'))
    (hdead : g'.alive = false) :
    g'.snake = g.snake ∧ g'.score = g.score ∧ g'.fruit = g.fruit ∧
      g'.message = deathMessage := by
  cases hseg : g.snake.segments with
  | nil =>
    unfold tickAlive at h
    rw [hseg] at h
    cases h
  | cons front rest =>
    obtain ⟨gmid, hstep, hcol⟩ := tickAlive_char hseg h
    rcases hstep with ⟨heat, hsp⟩ | ⟨hneat, hgmid, hrng⟩
    · obtain ⟨ha, hs2, hb, hsn, hm, hfru, hfin⟩ := spawnFruit_some hsp
      have hnocol : snakeCollided gmid.snake gmid.board_size = false := by
        rw [hsn, hb]
        exact eat_no_collision hseg hin hoff heat
      rcases hcol with ⟨hc, _⟩ | ⟨_, rfl⟩
      · rw [hnocol] at hc
        cases hc
      · rw [ha] at hdead
        have hfalse : g.alive = false := hdead
        rw [halive] at hfalse
        cases hfalse
    · subst hgmid
      subst hrng
      rcases hcol with ⟨hc, rfl⟩ | ⟨hc, rfl⟩
      · exact ⟨rfl, rfl, rfl, rfl⟩
      · have hfalse : g.alive = false := hdead
        rw [halive] at hfalse
        cases hfalse

theorem fieldIndex_lt {size : Size} {p : Point}
    (hp : pointInsideArea p size = true) :
    p.y * size.width + p.x < size.width * size.height := by
  rw [pointInsideArea, decide_eq_true_eq] at hp
  obtain ⟨h1, h2, h3, h4⟩ := hp
  have h5 : p.y * size.width ≤ (size.height - 1) * size.width :=
    mul_le_mul_of_nonneg_right (by omega) (by omega)
  have h6 : (size.height - 1) * size.width =
      size.height * size.width - size.width := by ring
  rw [mul_comm size.width size.height]
  omega

theorem fieldIndex_nonneg {size : Size} {p : Point}
    (hp : pointInsideArea p size = true) :
    0 ≤ p.y * size.width + p.x := by
  rw [pointInsideArea, decide_eq_true_eq] at hp
  obtain ⟨h1, h2, h3, h4⟩ := hp
  have h5 : 0 ≤ p.y * size.width := mul_nonneg (by omega) (by omega)
  omega

theorem fieldIndex_inj {size : Size} {p q : Point}
    (hp : pointInsideArea p size = true) (hq : pointInsideArea q size = true)
    (hidx : p.y * size.width + p.x = q.y * size.width + q.x) : p = q := by
  rw [pointInsideArea, decide_eq_true_eq] at hp hq
  obtain ⟨hp1, hp2, hp3, hp4⟩ := hp
  obtain ⟨hq1, hq2, hq3, hq4⟩ := hq
  have hw : size.width ≠ 0 := by omega
  have hxp : (p.y * size.width + p.x) % size.width = p.x := by
    rw [add_comm, mul_comm, Int.add_mul_emod_self_left, Int.emod_eq_of_lt hp1 hp2]
  have hxq : (q.y * size.width + q.x) % size.width = q.x := by
    rw [add_comm, mul_comm, Int.add_mul_emod_self_left, Int.emod_eq_of_lt hq1 hq2]
  have hyp : (p.y * size.width + p.x) / size.width = p.y := by
    rw [add_comm, mul_comm, Int.add_mul_ediv_left _ _ hw,
      Int.ediv_eq_zero_of_lt hp1 hp2, zero_add]
  have hyq : (q.y * size.width + q.x) / size.width = q.y := by
    rw [add_comm, mul_comm, Int.add_mul_ediv_left _ _ hw,
      Int.ediv_eq_zero_of_lt hq1 hq2, zero_add]
  obtain ⟨px, py⟩ := p
  obtain ⟨qx, qy⟩ := q
  simp only at hxp hxq hyp hyq hidx ⊢
  rw [Point.mk.injEq]
  constructor
  · rw [← hxp, ← hxq, hidx]
  · rw [← hyp, ← hyq, hidx]

theorem getPixel_drawPixel {f : Field} {p q : Point} (v : Bool)
    (hlen : f.data.length = (f.size.width * f.size.height).toNat)
    (hp : pointInsideArea p f.size = true) (hq : pointInsideArea q f.size = true) :
    getPixel (drawPixel f p v) q = if q = p then v else getPixel f q := by
  unfold getPixel drawPixel
  simp only [List.getD_eq_getElem?_getD, List.getElem?_set]
  by_cases hij : (p.y * f.size.width + p.x).toNat = (q.y * f.size.width + q.x).toNat
  · have hpq : q = p := by
      refine fieldIndex_inj hq hp ?_
      have h1 := fieldIndex_nonneg hp
      have h2 := fieldIndex_nonneg hq
      omega
    have hlt : (p.y * f.size.width + p.x).toNat < f.data.length := by
      rw [hlen]
      have h1 := fieldIndex_lt hp
      have h2 := fieldIndex_nonneg hp
      omega
    rw [if_pos hij, if_pos hlt, if_pos hpq]
    rfl
  · have hpq : ¬(q = p) := by
      intro he
      subst he
      exact hij rfl
    rw [if_neg hij, if_neg hpq]

theorem drawPixel_size (f : Field) (p : Point) (v : Bool) :
    (drawPixel f p v).size = f.size := rfl

theorem drawPixel_length (f : Field) (p : Point) (v : Bool) :
    (drawPixel f p v).data.length = f.data.length := by
  simp [drawPixel]

theorem drawLineGo_preserve (d : Direction) :
    ∀ (n : Nat) (f : Field) (p : Point),
      (drawLineGo f p d n).1.size = f.size ∧
        (drawLineGo f p d n).1.data.length = f.data.length := by
  intro n
  induction n with
  | zero => intro f p; exact ⟨rfl, rfl⟩
  | succ m ih =>
    intro f p
    rw [drawLineGo]
    refine ⟨(ih _ _).1.trans rfl, (ih _ _).2.trans ?_⟩
    exact drawPixel_length f p true

theorem drawLineGo_snd (d : Direction) :
    ∀ (n : Nat) (f : Field) (p : Point),
      (drawLineGo f p d n).2 = advance p d (Int.ofNat n) := by
  intro n
  induction n with
  | zero =>
    intro f p
    rw [drawLineGo, show Int.ofNat 0 = 0 from rfl, advance_zero]
  | succ m ih =>
    intro f p
    rw [drawLineGo, ih, advance_advance]
    congr 1
    simp only [Int.ofNat_eq_coe]
    omega

theorem getPixel_drawLineGo {q : Point} (d : Direction) :
    ∀ (n : Nat) (f : Field) (p : Point),
      f.data.length = (f.size.width * f.size.height).toNat →
      (∀ r ∈ lineCells p d (Int.ofNat n), pointInsideArea r f.size = true) →
      pointInsideArea q f.size = true →
      getPixel (drawLineGo f p d n).1 q =
        (decide (q ∈ lineCells p d (Int.ofNat n)) || getPixel f q) := by
  intro n
  induction n with
  | zero =>
    intro f p hlen hcells hq
    rw [drawLineGo]
    simp [lineCells]
  | succ m ih =>
    intro f p hlen hcells hq
    have hsplit : lineCells p d (Int.ofNat (m + 1)) =
        p :: lineCells (advance p d 1) d (Int.ofNat m) := by
      rw [show Int.ofNat (m + 1) = Int.ofNat m + 1 by
        simp only [Int.ofNat_eq_coe]; omega]
      exact lineCells_succ p d (by simp only [Int.ofNat_eq_coe]; omega)
    rw [hsplit] at hcells
    have hp : pointInsideArea p f.size = true :=
      hcells p (List.mem_cons_self _ _)
    rw [drawLineGo]
    rw [ih (drawPixel f p true) (advance p d 1)
      ((drawPixel_length f p true).trans hlen)
      (fun r hr => hcells r (List.mem_cons_of_mem _ hr)) hq]
    rw [getPixel_drawPixel true hlen hp hq]
    rw [hsplit]
    by_cases hqp : q = p
    · subst hqp
      simp
    · simp [hqp, List.mem_cons]

theorem drawLine_preserve (f : Field) (p : Point) (d : Direction) (len : Int) :
    (drawLine f p d len).1.size = f.size ∧
      (drawLine f p d len).1.data.length = f.data.length :=
  drawLineGo_preserve d len.toNat f p

theorem getPixel_drawSegs {q : Point} :
    ∀ (segs : List Segment) (f : Field) (cursor : Point),
      f.data.length = (f.size.width * f.size.height).toNat →
      (∀ seg ∈ segs, 0 ≤ seg.length) →
      (∀ r ∈ segsCells cursor segs, pointInsideArea r f.size = true) →
      pointInsideArea q f.size = true →
      getPixel (drawSegs f cursor segs) q =
        (decide (q ∈ segsCells cursor segs) || getPixel f q) := by
  intro segs
  induction segs with
  | nil =>
    intro f cursor hlen hlens hcells hq
    rw [drawSegs]
    simp [segsCells]
  | cons seg rest ih =>
    intro f cursor hlen hlens hcells hq
    have hl0 : 0 ≤ seg.length := hlens seg (List.mem_cons_self _ _)
    have hofnat : Int.ofNat seg.length.toNat = seg.length := by
      simp only [Int.ofNat_eq_coe]
      omega
    have hpres := drawLine_preserve f cursor (opposite seg.direction) seg.length
    have hcur : (drawLine f cursor (opposite seg.direction) seg.length).2 =
        advance cursor (opposite seg.direction) seg.length := by
      rw [drawLine, drawLineGo_snd, hofnat]
    have hlen1 : (drawLine f cursor (opposite seg.direction) seg.length).1.data.length =
        ((drawLine f cursor (opposite seg.direction) seg.length).1.size.width *
          (drawLine f cursor (opposite seg.direction) seg.length).1.size.height).toNat := by
      rw [hpres.2, hpres.1, hlen]
    simp only [segsCells] at hcells ⊢
    have hline_in : ∀ r ∈ lineCells cursor (opposite seg.direction)
        (Int.ofNat seg.length.toNat), pointInsideArea r f.size = true := by
      intro r hr
      rw [hofnat] at hr
      exact hcells r (List.mem_append_left _ hr)
    rw [drawSegs]
    rw [hcur]
    rw [ih (drawLine f cursor (opposite seg.direction) seg.length).1
      (advance cursor (opposite seg.direction) seg.length) hlen1
      (fun x hx => hlens x (List.mem_cons_of_mem _ hx))
      (by rw [hpres.1]; exact fun r hr => hcells r (List.mem_append_right _ hr))
      (by rw [hpres.1]; exact hq)]
    have hf1pix : getPixel (drawLine f cursor (opposite seg.direction) seg.length).1 q =
        (decide (q ∈ lineCells cursor (opposite seg.direction) seg.length) ||
          getPixel f q) := by
      rw [← hofnat, drawLine]
      exact getPixel_drawLineGo (opposite seg.direction) seg.length.toNat f cursor
        hlen hline_in hq
    rw [hf1pix]
    by_cases h1 : q ∈ lineCells cursor (opposite seg.direction) seg.length
    · by_cases h2 : q ∈ segsCells (advance cursor (opposite seg.direction) seg.length) rest
      · simp [h1, h2, List.mem_append]
      · simp [h1, h2, List.mem_append]
    · by_cases h2 : q ∈ segsCells (advance cursor (opposite seg.direction) seg.length) rest
      · simp [h1, h2, List.mem_append]
      · simp [h1, h2, List.mem_append]

theorem moveSnakeHead_straight' {s : Snake} {front : Segment} {rest : List Segment}
    (hseg : s.segments = front :: rest) :
    moveSnakeHead s front.direction =
      ⟨advance s.head front.direction 1,
        ⟨front.direction, front.length + 1⟩ :: rest⟩ := by
  obtain ⟨hd, segs⟩ := s
  obtain ⟨fd, fl⟩ := front
  simp only at hseg
  subst hseg
  exact moveSnakeHead_straight hd fd fl rest

theorem shrinkSegments_front (a : Segment) (rest : List Segment)
    (h : 2 ≤ a.length ∨ rest ≠ []) :
    ((shrinkSegments (a :: rest)).head?.map Segment.direction) = some a.direction := by
  cases rest with
  | nil =>
    rcases h with h | h
    · rw [shrinkSegments_single, if_neg (by omega)]
      rfl
    · exact absurd rfl h
  | cons r rs =>
    rw [shrinkSegments_cons_cons]
    rfl

/-- The fixed rng stream used by the concrete test states below. -/
def rngZero : Rng := ⟨fun _ => 0, 0⟩

/-- An alive state one cell away from the top wall, used for C1. -/
def claim1Game : Game :=
  { alive := true
    score := 0
    board_size := ⟨20, 20⟩
    snake := ⟨⟨10, 10⟩, [⟨.up, 3⟩]⟩
    fruit := ⟨1, 1⟩
    message := "" }

/-- The state produced by one fruitless tick of `claim1Game`. -/
def claim1Post : Game := { claim1Game with snake := ⟨⟨10, 9⟩, [⟨.up, 3⟩]⟩ }

/-- C1: after any nsnake.cpp tick on a positively sized board (the program
fixes 20 × 20 at creation, so this covers every reachable state), if the
resulting state is alive then the snake's head lies strictly inside the
board and coincides with no other occupied body cell: the traced cells
contain the head at most once. -/
theorem claim1_tick_alive_head_safe (g : Game) (input : Int) (rng : Rng)
    (fuel : Nat) (g' : Game) (rng' : Rng)
    (hW : 0 < g.board_size.width) (hH : 0 < g.board_size.height)
    (h : gameDoTick g input rng fuel = some (g', rng'))
    (halive : g'.alive = true) :
    pointInsideArea g'.snake.head g'.board_size = true ∧
      (traceCells g'.snake).count g'.snake.head ≤ 1 := by
  unfold gameDoTick at h
  by_cases ha : g.alive = true
  · rw [if_pos ha] at h
    cases hseg : g.snake.segments with
    | nil =>
      unfold tickAlive at h
      rw [hseg] at h
      cases h
    | cons front rest =>
      obtain ⟨gmid, hstep, hcol⟩ := tickAlive_char hseg h
      rcases hcol with ⟨hc, rfl⟩ | ⟨hc, rfl⟩
      · simp at halive
      · obtain ⟨hnb, hin⟩ := snakeCollided_false_iff.mp hc
        exact ⟨hin, count_head_le_one hnb⟩
  · rw [if_neg ha] at h
    by_cases hcf : isConfirmInput input = true
    · rw [if_pos hcf] at h
      obtain ⟨h1, h2, h3, h4, h5, h6, h7⟩ := gameReset_sound h
      rw [h5, h4]
      exact reset_head_safe hW hH
    · rw [if_neg hcf] at h
      simp only [Option.some.injEq, Prod.mk.injEq] at h
      obtain ⟨h1, _⟩ := h
      rw [← h1] at halive
      exact absurd halive ha

/-- C1 witness: the theorem applied to a concrete fruitless tick. -/
theorem claim1_witness :
    pointInsideArea claim1Post.snake.head claim1Post.board_size = true ∧
      (traceCells claim1Post.snake).count claim1Post.snake.head ≤ 1 :=
  claim1_tick_alive_head_safe claim1Game 0 rngZero 1 claim1Post rngZero
    (by decide) (by decide) rfl rfl

/-- A state (not reachable in play) whose fruit sits on the snake's tail
right next to the head: turning left eats the fruit and dies at once. -/
def claim2Game : Game :=
  { alive := true
    score := 0
    board_size := ⟨20, 20⟩
    snake := ⟨⟨5, 5⟩, [⟨.up, 1⟩, ⟨.right, 1⟩, ⟨.down, 2⟩]⟩
    fruit := ⟨4, 5⟩
    message := "" }

/-- C2 counterexample: a tick of `claim2Game` makes the collision check
fire (the result is dead, with the pre-move snake restored), yet the score
was incremented from 0 to 1 and the fruit was respawned at (0, 0): the
eaten-fruit side effects are not rolled back, so score and fruit do not
equal their pre-tick values as the claim demands for every alive state. -/
theorem claim2_counterexample :
    gameDoTick claim2Game KEY_LEFT rngZero 2 =
      some ({ claim2Game with
        alive := false
        score := 1
        fruit := ⟨0, 0⟩
        message := deathMessage }, ⟨rngZero.seq, 1⟩) ∧
      claim2Game.alive = true ∧ claim2Game.score = 0 ∧
      claim2Game.fruit = ⟨4, 5⟩ ∧ (⟨0, 0⟩ : Point) ≠ (⟨4, 5⟩ : Point) :=
  ⟨rfl, rfl, rfl, rfl, by decide⟩

/-- C2 (amended): for every alive state whose fruit lies inside the board
and on no snake-occupied cell — true of every state whose fruit was placed
by `spawnFruit` — a tick whose collision check fires (the tick result is
dead) leaves the stored snake, the score and the fruit exactly at their
pre-tick values and sets the terminal message. -/
theorem claim2_collision_freezes_state (g : Game) (input : Int) (rng : Rng)
    (fuel : Nat) (g' : Game) (rng' : Rng) (halive : g.alive = true)
    (hin : pointInsideArea g.fruit g.board_size = true)
    (hoff : g.fruit ∉ traceCells g.snake)
    (h : gameDoTick g input rng fuel = some (g', rng'))
    (hdead : g'.alive = false) :
    g'.snake = g.snake ∧ g'.score = g.score ∧ g'.fruit = g.fruit ∧
      g'.message = deathMessage := by
  unfold gameDoTick at h
  rw [if_pos halive] at h
  exact tickAlive_death halive hin hoff h hdead

/-- A state about to run head-first into the top wall, used for C2. -/
def claim2WallGame : Game :=
  { alive := true
    score := 0
    board_size := ⟨20, 20⟩
    snake := ⟨⟨10, 0⟩, [⟨.up, 3⟩]⟩
    fruit := ⟨0, 5⟩
    message := "" }

/-- The dead state produced by driving `claim2WallGame` into the wall. -/
def claim2WallPost : Game :=
  { claim2WallGame with alive := false, message := deathMessage }

/-- C2 witness: the amended theorem applied to a concrete wall-death tick. -/
theorem claim2_witness :
    claim2WallPost.snake = claim2WallGame.snake ∧
      claim2WallPost.score = claim2WallGame.score ∧
      claim2WallPost.fruit = claim2WallGame.fruit ∧
      claim2WallPost.message = deathMessage :=
  claim2_collision_freezes_state claim2WallGame 0 rngZero 1 claim2WallPost
    rngZero rfl (by decide) (by decide) rfl rfl

/-- An arbitrary pre-reset state with a 20 × 20 board, used for C3. -/
def claim3Pre : Game :=
  { alive := false
    score := 5
    board_size := ⟨20, 20⟩
    snake := ⟨⟨1, 1⟩, [⟨.down, 3⟩]⟩
    fruit := ⟨7, 7⟩
    message := "x" }

/-- The state produced by `gameReset` from `claim3Pre` with `rngZero`. -/
def claim3Reset : Game :=
  { alive := true
    score := 0
    board_size := ⟨20, 20⟩
    snake := ⟨⟨10, 10⟩, [⟨.up, 3⟩]⟩
    fruit := ⟨0, 0⟩
    message := "" }

/-- C3: every nsnake.cpp game state reachable from reset has total snake
length (the sum of all segment lengths) equal to score + 3; moreover a
tick from an alive reachable state whose moved head lands on the fruit
increases score and total length by exactly one, and any other such tick
(death ticks included, which restore the pre-move snake) leaves both the
score and the total length unchanged. -/
theorem claim3_length_score_invariant (g : Game) (h : GameReachable g) :
    segmentLengthSum g.snake.segments = g.score + 3 ∧
      ∀ (input : Int) (rng : Rng) (fuel : Nat) (g' : Game) (rng' : Rng)
        (front : Segment) (rest : List Segment),
        g.alive = true → g.snake.segments = front :: rest →
        gameDoTick g input rng fuel = some (g', rng') →
        (((moveSnakeHead g.snake (chooseDirection input front.direction)).head =
            g.fruit →
          g'.score = g.score + 1 ∧
            segmentLengthSum g'.snake.segments =
              segmentLengthSum g.snake.segments + 1) ∧
          ((moveSnakeHead g.snake (chooseDirection input front.direction)).head ≠
              g.fruit →
            g'.score = g.score ∧
              segmentLengthSum g'.snake.segments =
                segmentLengthSum g.snake.segments)) := by
  have inv := reachable_inv h
  refine ⟨inv.sumEq, ?_⟩
  intro input rng fuel g' rng' front rest halive hseg htick
  unfold gameDoTick at htick
  rw [if_pos halive] at htick
  exact (tickAlive_inv_delta inv hseg htick).2

/-- C3 witness: the invariant evaluated on the concrete reset state. -/
theorem claim3_witness :
    segmentLengthSum claim3Reset.snake.segments = claim3Reset.score + 3 :=
  (claim3_length_score_invariant claim3Reset
    (GameReachable.reset claim3Pre rngZero 1 claim3Reset ⟨rngZero.seq, 1⟩
      (by decide) (by decide) rfl)).1

/-- A dead snake.cpp game whose stale fruit sits where the re-centred
snake's body will be, used for C4. -/
def claim4Game : Game :=
  { alive := false
    score := 5
    board_size := ⟨20, 20⟩
    snake := ⟨⟨3, 3⟩, [⟨.right, 2⟩]⟩
    fruit := ⟨10, 12⟩
    message := deathMessage }

/-- C4 (the code violates the claim): in the snake.cpp variant, `doTick`
on a dead game with a confirm key calls `resetGame`, which does not spawn
a fruit, so immediately after the reset the stale fruit (10, 12) lies on a
cell occupied by the fresh snake.  (nsnake.cpp's `Game::reset` ends with
`spawnFruit`, which never returns an occupied cell, and every later tick
preserves the invariant — see the fruitOff field of `Inv`.) -/
theorem claim4_reset_leaves_fruit_on_snake :
    doTick claim4Game KEY_ENTER rngZero 1 =
      some (resetGame claim4Game, rngZero) ∧
      (resetGame claim4Game).fruit ∈ traceCells (resetGame claim4Game).snake ∧
      pointCollidesWithSnake (resetGame claim4Game).fruit
        (resetGame claim4Game).snake true = true :=
  ⟨rfl, by decide, by decide⟩

/-- The straight snake of the C5 counterexample. -/
def claim5Snake : Snake := ⟨⟨10, 10⟩, [⟨.up, 3⟩]⟩

/-- C5 counterexample: the point (10, 11) lies on the traced body of the
straight snake (head (10, 10), one upward segment of length 3) and is not
the head cell, yet `pointCollidesWithSnake` with the head excluded returns
false: the head-excluding mode skips the whole first segment, not just the
head cell. -/
theorem claim5_counterexample :
    (⟨10, 11⟩ : Point) ∈ traceCells claim5Snake ∧
      (⟨10, 11⟩ : Point) ≠ claim5Snake.head ∧
      pointCollidesWithSnake ⟨10, 11⟩ claim5Snake false = false :=
  ⟨by decide, by decide, by decide⟩

/-- The coiled snake of the C5 scenario; its tail cell is (4, 5). -/
def claim5Coiled : Snake := ⟨⟨5, 5⟩, [⟨.up, 1⟩, ⟨.right, 1⟩, ⟨.down, 2⟩]⟩

/-- C5 (amended): `pointCollidesWithSnake` with `includeHead = true` holds
exactly on the traced cells, and with `includeHead = false` exactly on the
cells of the segments after the first — the whole first segment's trace is
excluded, not merely the head cell.  For the coiled scenario snake it
reports true on the tail cell and false on the current head cell. -/
theorem claim5_collision_query_semantics :
    (∀ (p : Point) (s : Snake),
      (pointCollidesWithSnake p s true = true ↔ p ∈ traceCells s) ∧
        (pointCollidesWithSnake p s false = true ↔ p ∈ bodyCells s)) ∧
      pointCollidesWithSnake ⟨4, 5⟩ claim5Coiled false = true ∧
      pointCollidesWithSnake claim5Coiled.head claim5Coiled false = false :=
  ⟨fun p s => ⟨pointCollides_head_iff p s, pointCollides_body_iff p s⟩,
    by decide, by decide⟩

/-- A dead game with a stale fruit at (10, 11), used for C6. -/
def claim6Game : Game :=
  { alive := false
    score := 7
    board_size := ⟨20, 20⟩
    snake := ⟨⟨3, 3⟩, [⟨.right, 2⟩]⟩
    fruit := ⟨10, 11⟩
    message := "x" }

/-- C6 (the code violates the claim): snake.cpp's `resetGame` performs
every reset step except spawning a fruit — the result is alive with score
0, empty message and the centred single-segment snake {up, 3} headed at
(width / 2, height / 2), but the fruit field is left untouched.  Here the
stale fruit (10, 11) then lies on the new snake's body; at program start
the fruit is uninitialised memory.  nsnake.cpp's `Game::reset` ends with
`spawnFruit` and does satisfy the claim. -/
theorem claim6_resetGame_no_fruit_spawn :
    resetGame claim6Game =
      { alive := true
        score := 0
        board_size := ⟨20, 20⟩
        snake := ⟨⟨10, 10⟩, [⟨.up, 3⟩]⟩
        fruit := ⟨10, 11⟩
        message := "" } ∧
      (resetGame claim6Game).fruit = claim6Game.fruit ∧
      (resetGame claim6Game).fruit ∈ traceCells (resetGame claim6Game).snake :=
  ⟨rfl, rfl, by decide⟩

/-- C7: from an alive state whose front segment has direction D (and
length at least one, as in every reachable state), an input mapping to the
inverse of D is rejected: the post-tick front segment direction is still D,
and whenever the snake survives the tick its head advanced exactly one
cell in direction D. -/
theorem claim7_reversal_rejected (g : Game) (input : Int) (rng : Rng)
    (fuel : Nat) (g' : Game) (rng' : Rng) (front : Segment)
    (rest : List Segment) (halive : g.alive = true)
    (hseg : g.snake.segments = front :: rest) (hlen : 1 ≤ front.length)
    (hrev : inputDirection input front.direction = opposite front.direction)
    (h : gameDoTick g input rng fuel = some (g', rng')) :
    (g'.snake.segments.head?.map Segment.direction) = some front.direction ∧
      (g'.alive = true →
        g'.snake.head = advance g.snake.head front.direction 1) := by
  have hcd : chooseDirection input front.direction = front.direction := by
    unfold chooseDirection
    rw [hrev, if_pos rfl]
  unfold gameDoTick at h
  rw [if_pos halive] at h
  obtain ⟨gmid, hstep, hcol⟩ := tickAlive_char hseg h
  rw [hcd] at hstep
  have hmv := moveSnakeHead_straight' hseg
  rcases hstep with ⟨heat, hsp⟩ | ⟨hneat, hgmid, hrng⟩
  · obtain ⟨ha, hs2, hb, hsn, hm, hfru, hfin⟩ := spawnFruit_some hsp
    rcases hcol with ⟨hc, rfl⟩ | ⟨hc, rfl⟩
    · constructor
      · show (g.snake.segments.head?.map Segment.direction) = some front.direction
        rw [hseg]
        rfl
      · intro hal
        simp at hal
    · constructor
      · rw [hsn]
        show ((moveSnakeHead g.snake front.direction).segments.head?.map
          Segment.direction) = some front.direction
        exact moveSnakeHead_front _ hseg
      · intro _
        rw [hsn]
        show (moveSnakeHead g.snake front.direction).head =
          advance g.snake.head front.direction 1
        exact moveSnakeHead_head _ hseg
  · subst hgmid
    subst hrng
    rcases hcol with ⟨hc, rfl⟩ | ⟨hc, rfl⟩
    · constructor
      · show (g.snake.segments.head?.map Segment.direction) = some front.direction
        rw [hseg]
        rfl
      · intro hal
        simp at hal
    · constructor
      · show ((shrinkSnakeTail (moveSnakeHead g.snake front.direction)).segments.head?.map
          Segment.direction) = some front.direction
        rw [hmv]
        show ((shrinkSegments (⟨front.direction, front.length + 1⟩ :: rest)).head?.map
          Segment.direction) = some front.direction
        refine (shrinkSegments_front _ _ (Or.inl ?_)).trans rfl
        show 2 ≤ front.length + 1
        omega
      · intro _
        show (shrinkSnakeTail (moveSnakeHead g.snake front.direction)).head =
          advance g.snake.head front.direction 1
        show (moveSnakeHead g.snake front.direction).head =
          advance g.snake.head front.direction 1
        exact moveSnakeHead_head _ hseg

/-- The state produced by a rejected down-arrow tick of `claim1Game`-like
data, used as the C7 witness. -/
def claim7Game : Game :=
  { alive := true
    score := 0
    board_size := ⟨20, 20⟩
    snake := ⟨⟨10, 10⟩, [⟨.up, 3⟩]⟩
    fruit := ⟨0, 0⟩
    message := "" }

/-- The post-tick state of the C7 witness. -/
def claim7Post : Game := { claim7Game with snake := ⟨⟨10, 9⟩, [⟨.up, 3⟩]⟩ }

/-- C7 witness: pressing down while moving up keeps the snake moving up. -/
theorem claim7_witness :
    (claim7Post.snake.segments.head?.map Segment.direction) =
      some Direction.up ∧
      (claim7Post.alive = true →
        claim7Post.snake.head = advance claim7Game.snake.head Direction.up 1) :=
  claim7_reversal_rejected claim7Game KEY_DOWN rngZero 1 claim7Post rngZero
    ⟨.up, 3⟩ [] rfl rfl (by decide) (by decide) rfl

/-- C8: when the game is dead, a confirm input (KEY_ENTER, newline 10 or
carriage return 13) makes the tick perform exactly the reset — nsnake.cpp's
`Game::reset` for `gameDoTick`, snake.cpp's `resetGame` (fruit untouched)
for `doTick` — and any other input leaves the game and the generator
entirely unchanged in both variants. -/
theorem claim8_dead_tick (g : Game) (input : Int) (rng : Rng) (fuel : Nat)
    (hdead : g.alive = false) :
    (isConfirmInput input = true →
      gameDoTick g input rng fuel = gameReset g rng fuel ∧
        doTick g input rng fuel = some (resetGame g, rng)) ∧
      (isConfirmInput input = false →
        gameDoTick g input rng fuel = some (g, rng) ∧
          doTick g input rng fuel = some (g, rng)) := by
  constructor
  · intro hc
    unfold gameDoTick doTick
    rw [hdead]
    simp [hc]
  · intro hc
    unfold gameDoTick doTick
    rw [hdead]
    simp [hc]

/-- A dead game used as the C8 witness. -/
def claim8Game : Game :=
  { alive := false
    score := 9
    board_size := ⟨20, 20⟩
    snake := ⟨⟨2, 2⟩, [⟨.left, 4⟩]⟩
    fruit := ⟨6, 6⟩
    message := deathMessage }

/-- C8 witness: the theorem applied at the ENTER key code. -/
theorem claim8_witness :
    (isConfirmInput 343 = true →
      gameDoTick claim8Game 343 rngZero 1 = gameReset claim8Game rngZero 1 ∧
        doTick claim8Game 343 rngZero 1 = some (resetGame claim8Game, rngZero)) ∧
      (isConfirmInput 343 = false →
        gameDoTick claim8Game 343 rngZero 1 = some (claim8Game, rngZero) ∧
          doTick claim8Game 343 rngZero 1 = some (claim8Game, rngZero)) :=
  claim8_dead_tick claim8Game 343 rngZero 1 rfl

/-- C9: the half-block glyph conditional of snake.cpp `printField` realises
exactly the table {00 → empty, 10 → upper, 01 → lower, 11 → full} on the
top pixel (j, i) and the bounds-guarded bottom pixel (j, i + 1). -/
theorem claim9_halfblock_glyphs :
    (∀ top bottom : Bool, printFieldGlyph top bottom = glyphTable top bottom) ∧
      ∀ (f : Field) (i j : Int),
        printFieldCell f i j =
          glyphTable (getPixel f ⟨j, i⟩)
            (decide (i + 1 < f.size.height) && getPixel f ⟨j, i + 1⟩) := by
  have htab : ∀ top bottom : Bool,
      printFieldGlyph top bottom = glyphTable top bottom := by
    intro top bottom
    cases top <;> cases bottom <;> rfl
  exact ⟨htab, fun f i j => htab _ _⟩

/-- The snake with a negative-length segment of the C10 counterexample. -/
def claim10Snake : Snake := ⟨⟨1, 1⟩, [⟨.up, -1⟩, ⟨.up, 1⟩]⟩

/-- C10 counterexample: for a snake containing a negative-length segment
the rasterizer and the collision query disagree even though every occupied
cell lies inside the field: `drawLine` draws nothing for a non-positive
length (its loop body never runs) while `pointCollidesWithSnake` still
advances its trace cursor by the negative length, so the cell (1, 1) is
drawn but reported collision-free. -/
theorem claim10_counterexample :
    (traceCells claim10Snake).all (fun p => pointInsideArea p ⟨3, 3⟩) = true ∧
      pointInsideArea ⟨1, 1⟩ ⟨3, 3⟩ = true ∧
      getPixel (drawSnake (clearField (makeField ⟨3, 3⟩)) claim10Snake) ⟨1, 1⟩ =
        true ∧
      pointCollidesWithSnake ⟨1, 1⟩ claim10Snake true = false :=
  ⟨by decide, by decide, by decide, by decide⟩

/-- C10 (amended): for every snake whose segment lengths are all
non-negative and whose occupied cells all lie inside the field bounds,
after `clearField` followed by `drawSnake` a cell inside the field is
marked occupied exactly when `pointCollidesWithSnake` with the head
included reports a collision there. -/
theorem claim10_draw_matches_collision (s : Snake) (size : Size)
    (hlens : ∀ seg ∈ s.segments, 0 ≤ seg.length)
    (hin : ∀ r ∈ traceCells s, pointInsideArea r size = true)
    (q : Point) (hq : pointInsideArea q size = true) :
    getPixel (drawSnake (clearField (makeField size)) s) q =
      pointCollidesWithSnake q s true := by
  have hlen : (clearField (makeField size)).data.length =
      ((clearField (makeField size)).size.width *
        (clearField (makeField size)).size.height).toNat := by
    simp [clearField, makeField]
  have hclear : getPixel (clearField (makeField size)) q = false := by
    simp only [getPixel, clearField, makeField, List.length_replicate,
      List.getD_eq_getElem?_getD, List.getElem?_replicate]
    split <;> rfl
  rw [drawSnake]
  rw [getPixel_drawSegs s.segments (clearField (makeField size)) s.head hlen
    hlens (by exact hin) (by exact hq)]
  rw [hclear, Bool.or_false]
  cases hc : pointCollidesWithSnake q s true with
  | true => exact decide_eq_true ((pointCollides_head_iff q s).mp hc)
  | false =>
    refine decide_eq_false ?_
    intro hm
    rw [(pointCollides_head_iff q s).mpr hm] at hc
    cases hc

/-- The small well-formed snake of the C10 witness. -/
def claim10Small : Snake := ⟨⟨1, 1⟩, [⟨.up, 2⟩]⟩

/-- C10 witness: the amended theorem applied on a 3 × 3 field. -/
theorem claim10_witness :
    getPixel (drawSnake (clearField (makeField ⟨3, 3⟩)) claim10Small) ⟨1, 1⟩ =
      pointCollidesWithSnake ⟨1, 1⟩ claim10Small true :=
  claim10_draw_matches_collision claim10Small ⟨3, 3⟩ (by decide) (by decide)
    ⟨1, 1⟩ (by decide)

end NSnake
